import Mathlib

/-!
A verification development for the `nix-fmt` rule module (`src/rules.rs`).

The rule tables (`spacing`, `indentation`, `ENTRY_OWNERS`, `LIST_ELEMENTS`),
the guard `after_literal`, and the test harness (`TestCase` and its
operations) are embedded from the source.  The surrounding DSL (directive
resolution), the indentation computation, and the formatting pipeline
`reformat_string` live outside this module; where a property needs them they
are modelled from the specification, and each such definition says so in its
doc comment.
-/

namespace NixFmt

/-- Node kinds of the nix grammar used by the rule module (`rnix` node tags).
A closed enumeration, as in the source. -/
inductive SyntaxKind where
  | NODE_SET
  | NODE_LIST
  | NODE_SET_ENTRY
  | NODE_OPERATION
  | NODE_INDEX_SET
  | NODE_LAMBDA
  | NODE_LET_IN
  | NODE_VALUE
  | NODE_STRING
  | NODE_PAREN
  | NODE_IDENT
  | TOKEN_COMMENT
deriving DecidableEq

/-- Token kinds appearing as spacing anchors in `spacing()`:
`T![=]`, `T![;]`, `T![==]`, `T![++]`, `T![.]`, `T![:]`, `T!['[']`,
`T![']']`, `T!['{']`, `T!['}']`. -/
inductive TokenKind where
  | eq
  | semicolon
  | eqeq
  | plusplus
  | dot
  | colon
  | openBracket
  | closeBracket
  | openBrace
  | closeBrace
deriving DecidableEq

/-- Which side of the anchor token a directive applies to (`before`/`after`;
`around` in the builder is sugar for registering both). -/
inductive Side where
  | before
  | after
deriving DecidableEq

/-- The four whitespace actions of the DSL
(`no_space`, `single_space`, `no_space_or_newline`, `single_space_or_newline`). -/
inductive WhitespaceAction where
  | noSpace
  | singleSpace
  | noSpaceOrNewline
  | singleSpaceOrNewline
deriving DecidableEq

/-- The guards used by the rule table.  The only guard registered by
`spacing()` is `after_literal`. -/
inductive GuardId where
  | afterLiteral
deriving DecidableEq

/-- The part of a syntax element that the rule module inspects through the
tree utilities: the kind of its previous sibling, if any
(`prev_sibling(node).map(|it| it.kind())`). -/
structure Element where
  prevKind : Option SyntaxKind
deriving DecidableEq

/-- Embedded from `after_literal` in `src/rules.rs`: matches on the previous
sibling's kind, `Some(NODE_SET) | Some(NODE_LIST) => true`, otherwise false. -/
def after_literal (e : Element) : Bool :=
  match e.prevKind with
  | some SyntaxKind.NODE_SET => true
  | some SyntaxKind.NODE_LIST => true
  | _ => false

def evalGuard : GuardId → Element → Bool
  | GuardId.afterLiteral, e => after_literal e

/-- One spacing directive of the DSL: container filter (`inside`), anchor
token, side, optional guard (`when`), and the whitespace action. -/
structure SpacingRule where
  inside : SyntaxKind
  anchor : TokenKind
  side : Side
  guard : Option GuardId
  action : WhitespaceAction
deriving DecidableEq

/-- A gap in the tree, as the resolver sees it: the anchor token kind, which
side of the anchor the gap is on, the kinds of the enclosing ancestor nodes,
and the element used for guard evaluation. -/
structure Gap where
  anchor : TokenKind
  side : Side
  ancestors : List SyntaxKind
  elem : Element
deriving DecidableEq

/-- Embedded from `spacing()` in `src/rules.rs`, directives in registration
order; `around` registers the `before` and `after` directives with the same
action. -/
def spacing : List SpacingRule := [
  -- .inside(NODE_SET_ENTRY).around(T![=]).single_space()
  ⟨SyntaxKind.NODE_SET_ENTRY, TokenKind.eq, Side.before, none, WhitespaceAction.singleSpace⟩,
  ⟨SyntaxKind.NODE_SET_ENTRY, TokenKind.eq, Side.after, none, WhitespaceAction.singleSpace⟩,
  -- .inside(NODE_SET_ENTRY).before(T![;]).no_space_or_newline()
  ⟨SyntaxKind.NODE_SET_ENTRY, TokenKind.semicolon, Side.before, none, WhitespaceAction.noSpaceOrNewline⟩,
  -- .inside(NODE_SET_ENTRY).before(T![;]).when(after_literal).no_space()
  ⟨SyntaxKind.NODE_SET_ENTRY, TokenKind.semicolon, Side.before, some GuardId.afterLiteral, WhitespaceAction.noSpace⟩,
  -- .inside(NODE_OPERATION).around(T![==]).single_space()
  ⟨SyntaxKind.NODE_OPERATION, TokenKind.eqeq, Side.before, none, WhitespaceAction.singleSpace⟩,
  ⟨SyntaxKind.NODE_OPERATION, TokenKind.eqeq, Side.after, none, WhitespaceAction.singleSpace⟩,
  -- .inside(NODE_OPERATION).after(T![++]).single_space()
  ⟨SyntaxKind.NODE_OPERATION, TokenKind.plusplus, Side.after, none, WhitespaceAction.singleSpace⟩,
  -- .inside(NODE_OPERATION).before(T![++]).single_space_or_newline()
  ⟨SyntaxKind.NODE_OPERATION, TokenKind.plusplus, Side.before, none, WhitespaceAction.singleSpaceOrNewline⟩,
  -- .inside(NODE_INDEX_SET).around(T![.]).no_space()
  ⟨SyntaxKind.NODE_INDEX_SET, TokenKind.dot, Side.before, none, WhitespaceAction.noSpace⟩,
  ⟨SyntaxKind.NODE_INDEX_SET, TokenKind.dot, Side.after, none, WhitespaceAction.noSpace⟩,
  -- .inside(NODE_LAMBDA).before(T![:]).no_space()
  ⟨SyntaxKind.NODE_LAMBDA, TokenKind.colon, Side.before, none, WhitespaceAction.noSpace⟩,
  -- .inside(NODE_LIST).after(T!['[']).single_space_or_newline()
  ⟨SyntaxKind.NODE_LIST, TokenKind.openBracket, Side.after, none, WhitespaceAction.singleSpaceOrNewline⟩,
  -- .inside(NODE_LIST).before(T![']']).single_space_or_newline()
  ⟨SyntaxKind.NODE_LIST, TokenKind.closeBracket, Side.before, none, WhitespaceAction.singleSpaceOrNewline⟩,
  -- .inside(NODE_SET).after(T!['{']).single_space_or_newline()
  ⟨SyntaxKind.NODE_SET, TokenKind.openBrace, Side.after, none, WhitespaceAction.singleSpaceOrNewline⟩,
  -- .inside(NODE_SET).before(T!['}']).single_space_or_newline()
  ⟨SyntaxKind.NODE_SET, TokenKind.closeBrace, Side.before, none, WhitespaceAction.singleSpaceOrNewline⟩]

/-- Modelled from the spec (the DSL matcher is not under `src/`): a directive
matches a gap when its anchor token kind and side agree with the gap and the
gap lies inside a node of the directive's container kind. -/
def matchesRule (d : SpacingRule) (g : Gap) : Bool :=
  (d.anchor == g.anchor) && (d.side == g.side) && g.ancestors.contains d.inside

def guardHolds (d : SpacingRule) (g : Gap) : Bool :=
  match d.guard with
  | some gd => evalGuard gd g.elem
  | none => false

/-- Modelled from the spec (the DSL resolver is not under `src/`), after the
resolution algorithm: among matching directives, guarded directives are
evaluated first in registration order and the first whose guard holds wins;
otherwise the first unguarded matching directive wins; otherwise the gap is
unresolved (`none`). -/
def resolve (rules : List SpacingRule) (g : Gap) : Option WhitespaceAction :=
  let ms := rules.filter (fun d => matchesRule d g)
  match ms.find? (fun d => guardHolds d g) with
  | some d => some d.action
  | none => (ms.find? (fun d => d.guard.isNone)).map (fun d => d.action)

/-- Embedded from `src/rules.rs`: `static ENTRY_OWNERS = &[NODE_SET, NODE_LET_IN]`. -/
def ENTRY_OWNERS : List SyntaxKind := [SyntaxKind.NODE_SET, SyntaxKind.NODE_LET_IN]

/-- Embedded from `src/rules.rs`: the `LIST_ELEMENTS` slice. -/
def LIST_ELEMENTS : List SyntaxKind := [
  SyntaxKind.NODE_VALUE,
  SyntaxKind.NODE_LIST,
  SyntaxKind.NODE_SET,
  SyntaxKind.NODE_INDEX_SET,
  SyntaxKind.NODE_LAMBDA,
  SyntaxKind.NODE_STRING,
  SyntaxKind.NODE_PAREN,
  SyntaxKind.NODE_IDENT]

/-- One indentation directive: owner kinds (`inside`) and child kinds
(`indent`); the builder accepts a single kind or a static slice, modelled
uniformly as lists. -/
structure IndentRule where
  inside : List SyntaxKind
  child : List SyntaxKind
deriving DecidableEq

/-- Embedded from `indentation()` in `src/rules.rs`, directives in
registration order. -/
def indentation : List IndentRule := [
  -- .inside(NODE_LIST).indent(LIST_ELEMENTS)
  ⟨[SyntaxKind.NODE_LIST], LIST_ELEMENTS⟩,
  -- .inside(ENTRY_OWNERS).indent(NODE_SET_ENTRY)
  ⟨ENTRY_OWNERS, [SyntaxKind.NODE_SET_ENTRY]⟩,
  -- .inside(NODE_LIST).indent(TOKEN_COMMENT)
  ⟨[SyntaxKind.NODE_LIST], [SyntaxKind.TOKEN_COMMENT]⟩,
  -- .inside(ENTRY_OWNERS).indent(TOKEN_COMMENT)
  ⟨ENTRY_OWNERS, [SyntaxKind.TOKEN_COMMENT]⟩]

/-- Modelled from the spec (the indentation registry logic is not under
`src/`): some directive's owner kinds contain the parent's kind and its child
kinds contain the element's kind. -/
def indentMatches (rules : List IndentRule) (parent child : SyntaxKind) : Bool :=
  rules.any (fun r => r.inside.contains parent && r.child.contains child)

/-- Modelled from the spec (the indentation registry logic is not under
`src/`): an element's indent level is its parent's level, plus one when a
directive matches the (parent kind, element kind) pair.  The element is
identified by its kind path, element kind first, up to the root. -/
def indent_level_of (rules : List IndentRule) : List SyntaxKind → Nat
  | c :: p :: rest =>
      indent_level_of rules (p :: rest) + (if indentMatches rules p c then 1 else 0)
  | _ => 0

/-- The whitespace content of one gap, abstracted to what the action
semantics inspect: how many line breaks it holds and how many spaces end it. -/
structure Ws where
  newlines : Nat
  spaces : Nat
deriving DecidableEq

/-- Modelled from the spec (the emission driver is not under `src/`): the
whitespace-action semantics table.  `NoSpace`/`SingleSpace` render fixed
whitespace; the `OrNewline` actions keep exactly one line break with
recomputed indentation when the original gap had one; an unresolved gap
(`none`) keeps its whitespace with blank lines beyond one collapsed. -/
def render (indent : Nat) (a : Option WhitespaceAction) (w : Ws) : Ws :=
  match a with
  | some WhitespaceAction.noSpace => ⟨0, 0⟩
  | some WhitespaceAction.singleSpace => ⟨0, 1⟩
  | some WhitespaceAction.noSpaceOrNewline =>
      if 0 < w.newlines then ⟨1, indent⟩ else ⟨0, 0⟩
  | some WhitespaceAction.singleSpaceOrNewline =>
      if 0 < w.newlines then ⟨1, indent⟩ else ⟨0, 1⟩
  | none => ⟨min w.newlines 2, w.spaces⟩

/-- One gap of a parsed document: its structural description (`gap`, fixed by
the grammar, unchanged by reformatting), the kind path used for indentation,
and its current whitespace. -/
structure FmtGap where
  gap : Gap
  path : List SyntaxKind
  ws : Ws
deriving DecidableEq

/-- Modelled from the spec: `reformat_string` (parse, resolve each gap
against the rule tables, emit) is not under `src/`.  A document is modelled
as its sequence of gaps; parsing fixes the structure, so reformatting
rewrites each gap's whitespace by the action resolved from the `spacing`
table at the indent level computed from the `indentation` table. -/
def formatGap (g : FmtGap) : FmtGap :=
  ⟨g.gap, g.path, render (indent_level_of indentation g.path) (resolve spacing g.gap) g.ws⟩

/-- Modelled from the spec: the full format pipeline on a document. -/
def reformat (d : List FmtGap) : List FmtGap :=
  d.map formatGap

/-- Embedded from `src/rules.rs` (`struct TestCase`). -/
structure TestCase where
  name : Option String
  before : String
  after : String
deriving DecidableEq

/-- The panic message of the wrong-formatting branch of `TestCase::run`,
with the format arguments `name`, `self.before`, `actual`, `self.after`
spliced in. -/
def wrongFormattingMsg (name before actual expected : String) : String :=
  "assertion failed(" ++ name ++ "): wrong formatting\nBefore:\n" ++ before ++
    "\n\nAfter:\n" ++ actual ++ "\n\nExpected:\n" ++ expected ++ "\n"

/-- The panic message of the idempotence branch of `TestCase::run`, with the
format arguments `name`, `actual`, `second_round` spliced in. -/
def notIdempotentMsg (name actual second_round : String) : String :=
  "assertion failed(" ++ name ++ "): formatting is not idempotent\nBefore:\n" ++
    actual ++ "\n\nAfter:\n" ++ second_round ++ "\n"

/-- Embedded from `TestCase::run`: first the output of one formatting pass is
compared with the expectation, then the pass is re-run on the actual output.
A panic is modelled as `Except.error` carrying the panic message; the
formatting pipeline `reformat_string` is the parameter `fmt`. -/
def runCase (fmt : String → String) (tc : TestCase) : Except String Unit :=
  let name := tc.name.getD ""
  let expected := tc.after
  let actual := fmt tc.before
  if expected ≠ actual then
    Except.error (wrongFormattingMsg name tc.before actual expected)
  else
    let second_round := fmt actual
    if actual ≠ second_round then
      Except.error (notIdempotentMsg name actual second_round)
    else
      Except.ok ()

/-- Embedded from `fn run(tests: &[TestCase])`: `tests.iter().for_each(run)`.
A panic aborts the iteration, so an error in one case ends the run. -/
def runAll (fmt : String → String) : List TestCase → Except String Unit
  | [] => Except.ok ()
  | tc :: rest =>
      match runCase fmt tc with
      | Except.error e => Except.error e
      | Except.ok _ => runAll fmt rest

/-- Leading/trailing-whitespace trim on a character list (`str::trim`; the
lines this is applied to are ASCII, where Rust and Lean agree on what is
whitespace). -/
def trim (l : List Char) : List Char :=
  ((l.dropWhile Char.isWhitespace).reverse.dropWhile Char.isWhitespace).reverse

/-- `str::find` for a literal pattern: index of the first occurrence of
`pat` in `s` (character index; the strings involved are ASCII, so this
coincides with Rust's byte index). -/
def findSub (pat : List Char) : List Char → Option Nat
  | [] => if pat = [] then some 0 else none
  | c :: rest =>
      if pat.isPrefixOf (c :: rest) then some 0
      else (findSub pat rest).map (· + 1)

/-- Embedded from `TestCase::try_from`: split the comment text at the first
`=>`; the input is the trimmed text before it, the expected output is the
trimmed text starting three characters past the match (`divisor + 3`). -/
def tryFrom (l : List Char) : Option TestCase :=
  (findSub ['=', '>'] l).map fun divisor =>
    ⟨none, String.mk (trim (l.take divisor)), String.mk (trim (l.drop (divisor + 3)))⟩

/-- The per-line comment scan of `collect_from_comments`:
`line.find("// ").map(|idx| &line[idx + 3..])`. -/
def commentTail (l : List Char) : Option (List Char) :=
  (findSub ['/', '/', ' '] l).map fun idx => l.drop (idx + 3)

/-- Embedded from `TestCase::collect_from_comments`, taking the source text
as its list of lines; the final `assert!(res.len() > 0)` panic is modelled as
`Except.error`. -/
def collect_from_comments (lines : List (List Char)) : Except String (List TestCase) :=
  let res := (lines.filterMap commentTail).filterMap tryFrom
  if res.length > 0 then Except.ok res else Except.error "assertion failed: res.len() > 0"

/-- `str::ends_with` for a literal suffix. -/
def ends_with (s suffix : String) : Bool :=
  suffix.data.isSuffixOf s.data

/-- `str::replace` on character lists: replace the leftmost non-overlapping
occurrences of `pat` by `rep`, left to right.  `skip` counts characters of a
match already consumed, so the recursion is structural on the list. -/
def replaceAux (pat rep : List Char) : Nat → List Char → List Char
  | _, [] => []
  | n + 1, _ :: rest => replaceAux pat rep n rest
  | 0, c :: rest =>
      if pat ≠ [] ∧ pat.isPrefixOf (c :: rest) then
        rep ++ replaceAux pat rep (pat.length - 1) rest
      else
        c :: replaceAux pat rep 0 rest

/-- `str::replace` on strings. -/
def replace (s pat rep : String) : String :=
  String.mk (replaceAux pat.data rep.data 0 s.data)

/-- `fs::read_to_string` against a directory modelled as an association list
from file name to file content. -/
def read_to_string (dir : List (String × String)) (name : String) : Option String :=
  (dir.find? (fun e => e.1 == name)).map (fun e => e.2)

/-- The entry loop of `TestCase::collect_from_dir`: every entry whose name
ends with `.bad.nix` contributes a case named by the sibling obtained by
replacing `.bad.` with `.good.`; a missing sibling panics with
`"{} not found"` formatted with the sibling name.  Other entries are skipped. -/
def collectEntries (dir : List (String × String)) : List (String × String) → Except String (List TestCase)
  | [] => Except.ok []
  | (name, content) :: rest =>
      if ends_with name ".bad.nix" then
        let after_name := replace name ".bad." ".good."
        match read_to_string dir after_name with
        | some after_content =>
            match collectEntries dir rest with
            | Except.error e => Except.error e
            | Except.ok tcs => Except.ok (⟨some after_name, content, after_content⟩ :: tcs)
        | none => Except.error (after_name ++ " not found")
      else
        collectEntries dir rest

/-- Embedded from `TestCase::collect_from_dir`, with the directory modelled
as an association list; the final `assert!(res.len() > 0)` is modelled as
`Except.error`. -/
def collect_from_dir (dir : List (String × String)) : Except String (List TestCase) :=
  match collectEntries dir dir with
  | Except.error e => Except.error e
  | Except.ok res =>
      if res.length > 0 then Except.ok res else Except.error "assertion failed: res.len() > 0"

/-- The `test_bad_good_tests` suite: collect the fixture pairs, then run
every collected case. -/
def suiteFromDir (fmt : String → String) (dir : List (String × String)) : Except String Unit :=
  match collect_from_dir dir with
  | Except.error e => Except.error e
  | Except.ok tests => runAll fmt tests

/-- The `test_inline_tests` suite: collect the embedded cases, then run
every collected case. -/
def suiteFromComments (fmt : String → String) (lines : List (List Char)) : Except String Unit :=
  match collect_from_comments lines with
  | Except.error e => Except.error e
  | Except.ok tests => runAll fmt tests

/-- The splitting rule as the specification words it: at the first `=>`, the
text before the marker, trimmed, is the input; the text after the marker
(that is, starting two characters past the match), trimmed, is the expected
output.  Kept separate from `tryFrom` so the two can be compared. -/
def specTryFrom (l : List Char) : Option TestCase :=
  (findSub ['=', '>'] l).map fun divisor =>
    ⟨none, String.mk (trim (l.take divisor)), String.mk (trim (l.drop (divisor + 2)))⟩

/-- The lines of `src/rules.rs` that contain the comment marker `"// "`,
verbatim and in file order (source lines 11, 15, 18, 22, 25, 29, 32, 35, 39,
61, 100, 101, 102, 142); these are exactly the lines the inline-comment scan
picks up. -/
def rulesSourceCommentLines : List String := [
  "    // Note: comments with fat arrow are tests!",
  "        // \x7b a=92; \x7d => \x7b a = 92; \x7d",
  "        // \x7b a = 92 ; \x7d => \x7b a = 92; \x7d",
  "        // a==  b => a == b",
  "        // a++  b => a ++ b",
  "        // foo . bar . baz => foo.bar.baz",
  "        // \x7b\x7d : 92 => \x7b\x7d: 92",
  "        // [1 2 3] => [ 1 2 3 ]",
  "        // \x7bfoo = 92;\x7d => \x7b foo = 92; \x7d",
  "        // FIXME: don\x27t force indent if comment is on the first line",
  "    /// For convenience, tests in this module are specified inline in comments,",
  "    /// right next to the corresponding rule definition. This test looks at the",
  "    /// text of this file, extracts test cases from comments and checks them.",
  "                .filter_map(|line| line.find(\"// \").map(|idx| &line[idx + 3..]))"]

/-- The eight test cases embedded in the comments of `spacing()`. -/
def inlineTestCases : List TestCase := [
  ⟨none, "\x7b a=92; \x7d", "\x7b a = 92; \x7d"⟩,
  ⟨none, "\x7b a = 92 ; \x7d", "\x7b a = 92; \x7d"⟩,
  ⟨none, "a==  b", "a == b"⟩,
  ⟨none, "a++  b", "a ++ b"⟩,
  ⟨none, "foo . bar . baz", "foo.bar.baz"⟩,
  ⟨none, "\x7b\x7d : 92", "\x7b\x7d: 92"⟩,
  ⟨none, "[1 2 3]", "[ 1 2 3 ]"⟩,
  ⟨none, "\x7bfoo = 92;\x7d", "\x7b foo = 92; \x7d"⟩]

theorem indentMatches_iff :
    ∀ p c : SyntaxKind, indentMatches indentation p c = true ↔
      ((p = SyntaxKind.NODE_LIST ∧ (c ∈ LIST_ELEMENTS ∨ c = SyntaxKind.TOKEN_COMMENT)) ∨
       ((p = SyntaxKind.NODE_SET ∨ p = SyntaxKind.NODE_LET_IN) ∧
        (c = SyntaxKind.NODE_SET_ENTRY ∨ c = SyntaxKind.TOKEN_COMMENT))) := by
  intro p c
  cases p <;> cases c <;> decide

theorem render_render : ∀ (i : Nat) (a : Option WhitespaceAction) (w : Ws),
    render i a (render i a w) = render i a w := by
  intro i a w
  cases a with
  | none => simp [render, min_assoc]
  | some act =>
      cases act <;> by_cases hw : 0 < w.newlines <;> simp [render, hw]

/-- C1: running the full format pipeline twice yields the same result as
running it once.  The pipeline is modelled on documents (sequences of gaps
whose structure is fixed by parsing): every whitespace action's rendered
output is a fixed point of the action, the unresolved fallback's collapse is
idempotent, and the resolved action and indent depend only on the unchanged
structure, so a second pass reproduces the first. -/
theorem reformat_idempotent : ∀ d : List FmtGap, reformat (reformat d) = reformat d := by
  intro d
  induction d with
  | nil => rfl
  | cons hd tl ih =>
      have h1 : formatGap (formatGap hd) = formatGap hd := by
        simp [formatGap, render_render]
      simp only [reformat, List.map_cons] at ih ⊢
      rw [h1]
      exact congrArg _ ih

/-- C2: for every gap before a semicolon inside a set entry, the resolved
action is `NoSpace` when `after_literal` holds of the element before the
terminator (the guarded directive wins over the general one registered
earlier), and `NoSpaceOrNewline` otherwise. -/
theorem semicolon_spacing_resolution :
    ∀ g : Gap, g.anchor = TokenKind.semicolon → g.side = Side.before →
      SyntaxKind.NODE_SET_ENTRY ∈ g.ancestors →
      resolve spacing g =
        some (if after_literal g.elem then WhitespaceAction.noSpace
              else WhitespaceAction.noSpaceOrNewline) := by
  intro g h1 h2 h3
  obtain ⟨a, s, anc, el⟩ := g
  simp only at h1 h2 h3 ⊢
  subst h1
  subst h2
  simp [resolve, spacing, matchesRule, guardHolds, evalGuard, h3,
    List.filter_cons, List.find?_cons]
  cases hb : after_literal el <;> simp [hb]

theorem semicolon_spacing_resolution_witness :
    resolve spacing
        ⟨TokenKind.semicolon, Side.before,
          [SyntaxKind.NODE_SET_ENTRY, SyntaxKind.NODE_SET],
          ⟨some SyntaxKind.NODE_SET⟩⟩ =
      some (if after_literal ⟨some SyntaxKind.NODE_SET⟩ then WhitespaceAction.noSpace
            else WhitespaceAction.noSpaceOrNewline) :=
  semicolon_spacing_resolution _ rfl rfl (by decide)

/-- C3: `after_literal e` is true if and only if `e`'s previous sibling
exists and is a set-literal (`NODE_SET`) or list-literal (`NODE_LIST`) node. -/
theorem after_literal_iff_prev_sibling_literal :
    ∀ e : Element, after_literal e = true ↔
      (∃ k, e.prevKind = some k ∧
        (k = SyntaxKind.NODE_SET ∨ k = SyntaxKind.NODE_LIST)) := by
  intro e
  obtain ⟨pk⟩ := e
  cases pk with
  | none => simp [after_literal]
  | some k => cases k <;> simp [after_literal]

theorem after_literal_iff_prev_sibling_literal_witness :
    after_literal ⟨some SyntaxKind.NODE_SET⟩ = true :=
  (after_literal_iff_prev_sibling_literal ⟨some SyntaxKind.NODE_SET⟩).mpr
    ⟨SyntaxKind.NODE_SET, rfl, Or.inl rfl⟩

/-- C4: the indentation rule set grants one extra indent level exactly when
the parent/child kind pair falls in one of the two directive groups: direct
children of a list literal that are list elements or comments, and direct
children of a set literal or let binding that are entries or comments;
otherwise the level equals the parent's level. -/
theorem indentation_two_groups :
    ∀ (p c : SyntaxKind) (rest : List SyntaxKind),
      (indent_level_of indentation (c :: p :: rest) =
          indent_level_of indentation (p :: rest) + 1 ↔
        ((p = SyntaxKind.NODE_LIST ∧ (c ∈ LIST_ELEMENTS ∨ c = SyntaxKind.TOKEN_COMMENT)) ∨
         ((p = SyntaxKind.NODE_SET ∨ p = SyntaxKind.NODE_LET_IN) ∧
          (c = SyntaxKind.NODE_SET_ENTRY ∨ c = SyntaxKind.TOKEN_COMMENT)))) ∧
      (indent_level_of indentation (c :: p :: rest) =
          indent_level_of indentation (p :: rest) ↔
        ¬ ((p = SyntaxKind.NODE_LIST ∧ (c ∈ LIST_ELEMENTS ∨ c = SyntaxKind.TOKEN_COMMENT)) ∨
           ((p = SyntaxKind.NODE_SET ∨ p = SyntaxKind.NODE_LET_IN) ∧
            (c = SyntaxKind.NODE_SET_ENTRY ∨ c = SyntaxKind.TOKEN_COMMENT)))) := by
  intro p c rest
  have hm := indentMatches_iff p c
  cases h : indentMatches indentation p c with
  | false =>
      rw [h] at hm
      simp only [Bool.false_eq_true, false_iff] at hm
      simp only [indent_level_of, h, if_false]
      simp [hm]
  | true =>
      rw [h] at hm
      simp only [true_iff] at hm
      simp only [indent_level_of, h, if_true]
      simp [hm]

theorem indentation_two_groups_witness :
    indent_level_of indentation [SyntaxKind.NODE_VALUE, SyntaxKind.NODE_LIST] =
      indent_level_of indentation [SyntaxKind.NODE_LIST] + 1 :=
  (indentation_two_groups SyntaxKind.NODE_LIST SyntaxKind.NODE_VALUE []).1.mpr
    (Or.inl ⟨rfl, Or.inl (by decide)⟩)

/-- C5: the spacing table registers `SingleSpace` on both sides of `==`
inside an operation, `SingleSpace` after and `SingleSpaceOrNewline` before
`++` inside an operation, `NoSpace` on both sides of `.` inside an index
expression, and `NoSpace` before `:` inside a lambda. -/
theorem spacing_registers_operator_rules :
    (⟨SyntaxKind.NODE_OPERATION, TokenKind.eqeq, Side.before, none, WhitespaceAction.singleSpace⟩ : SpacingRule) ∈ spacing ∧
    (⟨SyntaxKind.NODE_OPERATION, TokenKind.eqeq, Side.after, none, WhitespaceAction.singleSpace⟩ : SpacingRule) ∈ spacing ∧
    (⟨SyntaxKind.NODE_OPERATION, TokenKind.plusplus, Side.after, none, WhitespaceAction.singleSpace⟩ : SpacingRule) ∈ spacing ∧
    (⟨SyntaxKind.NODE_OPERATION, TokenKind.plusplus, Side.before, none, WhitespaceAction.singleSpaceOrNewline⟩ : SpacingRule) ∈ spacing ∧
    (⟨SyntaxKind.NODE_INDEX_SET, TokenKind.dot, Side.before, none, WhitespaceAction.noSpace⟩ : SpacingRule) ∈ spacing ∧
    (⟨SyntaxKind.NODE_INDEX_SET, TokenKind.dot, Side.after, none, WhitespaceAction.noSpace⟩ : SpacingRule) ∈ spacing ∧
    (⟨SyntaxKind.NODE_LAMBDA, TokenKind.colon, Side.before, none, WhitespaceAction.noSpace⟩ : SpacingRule) ∈ spacing := by
  decide

/-- C6: on every comment-bearing line of the rule-set source, the inline
test extraction splits the comment text at the first `=>`, and the result
coincides with taking the trimmed text before the marker as the input and
the trimmed text after the marker as the expected output (`specTryFrom`);
concretely, extraction yields the eight embedded test cases. -/
theorem inline_test_extraction_split :
    (∀ t ∈ (rulesSourceCommentLines.map String.data).filterMap commentTail,
        tryFrom t = specTryFrom t) ∧
    collect_from_comments (rulesSourceCommentLines.map String.data) =
      Except.ok inlineTestCases := by
  constructor
  · decide
  · rfl

theorem inline_test_extraction_split_witness :
    tryFrom ("\x7b a=92; \x7d => \x7b a = 92; \x7d".data) =
      specTryFrom ("\x7b a=92; \x7d => \x7b a = 92; \x7d".data) :=
  inline_test_extraction_split.1 _ (by decide)

theorem collectEntries_skip :
    ∀ (dir l : List (String × String)),
      (∀ e ∈ l, ends_with e.1 ".bad.nix" = false) →
      collectEntries dir l = Except.ok [] := by
  intro dir l
  induction l with
  | nil => intro _; rfl
  | cons hd tl ih =>
      intro h
      obtain ⟨name, content⟩ := hd
      have hb := h (name, content) (List.mem_cons_self _ _)
      simp only at hb
      simp only [collectEntries, hb, Bool.false_eq_true, if_false]
      exact ih fun e he => h e (List.mem_cons_of_mem _ he)

theorem collectEntries_missing :
    ∀ (dir l : List (String × String)),
      (∃ e ∈ l, ends_with e.1 ".bad.nix" = true ∧
        read_to_string dir (replace e.1 ".bad." ".good.") = none) →
      ∃ n, ends_with n ".bad.nix" = true ∧
        collectEntries dir l =
          Except.error (replace n ".bad." ".good." ++ " not found") := by
  intro dir l
  induction l with
  | nil =>
      rintro ⟨e, he, -⟩
      cases he
  | cons hd tl ih =>
      rintro ⟨e, he, hbad, hmiss⟩
      obtain ⟨name, content⟩ := hd
      by_cases hb : ends_with name ".bad.nix" = true
      · cases hr : read_to_string dir (replace name ".bad." ".good.") with
        | none =>
            exact ⟨name, hb, by simp [collectEntries, hb, hr]⟩
        | some ac =>
            have htl : e ∈ tl := by
              rcases List.mem_cons.mp he with rfl | htl
              · simp only at hbad hmiss
                rw [hmiss] at hr
                cases hr
              · exact htl
            obtain ⟨n, hn1, hn2⟩ := ih ⟨e, htl, hbad, hmiss⟩
            refine ⟨n, hn1, ?_⟩
            simp [collectEntries, hb, hr, hn2]
      · have htl : e ∈ tl := by
          rcases List.mem_cons.mp he with rfl | htl
          · simp only at hbad
            exact absurd hbad hb
          · exact htl
        obtain ⟨n, hn1, hn2⟩ := ih ⟨e, htl, hbad, hmiss⟩
        refine ⟨n, hn1, ?_⟩
        simp only [collectEntries, Bool.not_eq_true] at hb ⊢
        simp [hb, hn2]

/-- C7: test-case collection fails at suite-load time, before any
formatting comparison, when the inline scan yields zero cases, when the
fixture directory yields zero pairs, or when a before-fixture's sibling
after-file is missing; in the missing-sibling case the failure message
names the expected filename.  The last two conjuncts show that a collection
error is the suite's outcome for every formatting function, so no
formatting comparison takes place. -/
theorem collection_failures_fatal :
    (∀ lines : List (List Char),
        (lines.filterMap commentTail).filterMap tryFrom = [] →
        collect_from_comments lines = Except.error "assertion failed: res.len() > 0") ∧
    (∀ dir : List (String × String),
        (∀ e ∈ dir, ends_with e.1 ".bad.nix" = false) →
        collect_from_dir dir = Except.error "assertion failed: res.len() > 0") ∧
    (∀ (dir : List (String × String)) (name content : String),
        (name, content) ∈ dir →
        ends_with name ".bad.nix" = true →
        read_to_string dir (replace name ".bad." ".good.") = none →
        ∃ n, ends_with n ".bad.nix" = true ∧
          collect_from_dir dir =
            Except.error (replace n ".bad." ".good." ++ " not found")) ∧
    (∀ (fmt : String → String) (lines : List (List Char)) (e : String),
        collect_from_comments lines = Except.error e →
        suiteFromComments fmt lines = Except.error e) ∧
    (∀ (fmt : String → String) (dir : List (String × String)) (e : String),
        collect_from_dir dir = Except.error e →
        suiteFromDir fmt dir = Except.error e) := by
  refine ⟨?_, ?_, ?_, ?_, ?_⟩
  · intro lines h
    simp [collect_from_comments, h]
  · intro dir h
    simp [collect_from_dir, collectEntries_skip dir dir h]
  · intro dir name content hmem hbad hmiss
    obtain ⟨n, hn1, hn2⟩ := collectEntries_missing dir dir ⟨(name, content), hmem, hbad, hmiss⟩
    exact ⟨n, hn1, by simp [collect_from_dir, hn2]⟩
  · intro fmt lines e h
    simp [suiteFromComments, h]
  · intro fmt dir e h
    simp [suiteFromDir, h]

theorem collection_failures_fatal_witness :
    collect_from_comments [" no tests here".data] =
      Except.error "assertion failed: res.len() > 0" ∧
    collect_from_dir [("readme.md", "R")] =
      Except.error "assertion failed: res.len() > 0" ∧
    (∃ n, ends_with n ".bad.nix" = true ∧
      collect_from_dir [("a.bad.nix", "A")] =
        Except.error (replace n ".bad." ".good." ++ " not found")) ∧
    suiteFromComments (fun s => s) [" no tests here".data] =
      Except.error "assertion failed: res.len() > 0" ∧
    suiteFromDir (fun s => s) [("readme.md", "R")] =
      Except.error "assertion failed: res.len() > 0" := by
  refine ⟨collection_failures_fatal.1 _ (by decide),
    collection_failures_fatal.2.1 _ (by decide),
    collection_failures_fatal.2.2.1 [("a.bad.nix", "A")] "a.bad.nix" "A" (by decide)
      (by decide) (by decide),
    collection_failures_fatal.2.2.2.1 _ _ _ (collection_failures_fatal.1 _ (by decide)),
    collection_failures_fatal.2.2.2.2 _ _ _ (collection_failures_fatal.2.1 _ (by decide))⟩

/-- C8 counterexample: the harness aborts at the first failing case, so a
later case is never verified.  With the identity pipeline, the second case
fails on its own with its own message, yet running both cases reports only
the first case's message, and the outcome is identical to running the first
case alone — the second case's failure is never reported. -/
theorem run_aborts_on_first_failure :
    runCase (fun s => s) ⟨none, "c", "d"⟩ =
      Except.error (wrongFormattingMsg "" "c" "c" "d") ∧
    runAll (fun s => s) [⟨none, "a", "b"⟩, ⟨none, "c", "d"⟩] =
      Except.error (wrongFormattingMsg "" "a" "a" "b") ∧
    runAll (fun s => s) [⟨none, "a", "b"⟩, ⟨none, "c", "d"⟩] =
      runAll (fun s => s) [⟨none, "a", "b"⟩] ∧
    wrongFormattingMsg "" "a" "a" "b" ≠ wrongFormattingMsg "" "c" "c" "d" := by
  refine ⟨rfl, rfl, rfl, ?_⟩
  decide

/-- C8 (amended): within a single case a correctness mismatch is reported
before the idempotence check is attempted, and across cases the harness
stops at the first failing case — the error of the first failing case is the
outcome of the whole run, whatever cases follow. -/
theorem run_failure_order :
    (∀ (fmt : String → String) (tc : TestCase), fmt tc.before ≠ tc.after →
        runCase fmt tc =
          Except.error (wrongFormattingMsg (tc.name.getD "") tc.before (fmt tc.before) tc.after)) ∧
    (∀ (fmt : String → String) (tc : TestCase) (rest : List TestCase) (e : String),
        runCase fmt tc = Except.error e →
        runAll fmt (tc :: rest) = Except.error e) := by
  constructor
  · intro fmt tc h
    have h' : tc.after ≠ fmt tc.before := fun he => h he.symm
    simp [runCase, h']
  · intro fmt tc rest e h
    simp [runAll, h]

theorem run_failure_order_witness :
    runCase (fun _ => "z") ⟨none, "a", "b"⟩ =
      Except.error (wrongFormattingMsg "" "a" "z" "b") ∧
    runAll (fun _ => "z") [⟨none, "a", "b"⟩] =
      Except.error (wrongFormattingMsg "" "a" "z" "b") := by
  have h1 := run_failure_order.1 (fun _ => "z") ⟨none, "a", "b"⟩ (by decide)
  exact ⟨h1, run_failure_order.2 _ _ [] _ h1⟩

/-- C9: a direct child of a list-literal node receives the extra indent
level exactly when its kind is one of the eight `LIST_ELEMENTS` kinds or it
is a comment token; a list child of any other kind, for example a binary
operation, receives no extra indent. -/
theorem list_child_indent_iff :
    ∀ (c : SyntaxKind) (rest : List SyntaxKind),
      (indent_level_of indentation (c :: SyntaxKind.NODE_LIST :: rest) =
          indent_level_of indentation (SyntaxKind.NODE_LIST :: rest) + 1 ↔
        (c ∈ LIST_ELEMENTS ∨ c = SyntaxKind.TOKEN_COMMENT)) ∧
      indent_level_of indentation (SyntaxKind.NODE_OPERATION :: SyntaxKind.NODE_LIST :: rest) =
        indent_level_of indentation (SyntaxKind.NODE_LIST :: rest) := by
  intro c rest
  have hm := indentMatches_iff SyntaxKind.NODE_LIST c
  constructor
  · cases h : indentMatches indentation SyntaxKind.NODE_LIST c with
    | false =>
        rw [h] at hm
        simp only [Bool.false_eq_true, false_iff] at hm
        simp only [indent_level_of, h, if_false]
        simp at hm
        simp [hm]
    | true =>
        rw [h] at hm
        simp only [true_iff] at hm
        simp only [indent_level_of, h, if_true]
        simp at hm
        simp [hm]
  · have hz : indentMatches indentation SyntaxKind.NODE_LIST SyntaxKind.NODE_OPERATION = false := by
      decide
    simp [indent_level_of, hz]

theorem list_child_indent_iff_witness :
    indent_level_of indentation [SyntaxKind.NODE_IDENT, SyntaxKind.NODE_LIST] =
      indent_level_of indentation [SyntaxKind.NODE_LIST] + 1 :=
  (list_child_indent_iff SyntaxKind.NODE_IDENT []).1.mpr (Or.inl (by decide))

theorem collectEntries_ok :
    ∀ (dir l : List (String × String)) (tcs : List TestCase),
      collectEntries dir l = Except.ok tcs →
      tcs = (l.filter (fun e => ends_with e.1 ".bad.nix")).map
        (fun e => ⟨some (replace e.1 ".bad." ".good."), e.2,
          (read_to_string dir (replace e.1 ".bad." ".good.")).getD ""⟩) := by
  intro dir l
  induction l with
  | nil =>
      intro tcs h
      cases h
      rfl
  | cons hd tl ih =>
      intro tcs h
      obtain ⟨name, content⟩ := hd
      by_cases hb : ends_with name ".bad.nix" = true
      · simp only [collectEntries, hb, if_true] at h
        cases hr : read_to_string dir (replace name ".bad." ".good.") with
        | none => rw [hr] at h; cases h
        | some ac =>
            rw [hr] at h
            cases hrec : collectEntries dir tl with
            | error e => rw [hrec] at h; cases h
            | ok tcs' =>
                rw [hrec] at h
                cases h
                simp [List.filter_cons, hb, hr, ih tcs' hrec]
      · simp only [collectEntries, Bool.not_eq_true] at hb h
        simp only [hb, Bool.false_eq_true, if_false] at h
        simp [List.filter_cons, hb, ih tcs h]

/-- C10: whenever fixture collection succeeds, the collected cases are
exactly the directory entries whose name ends with `.bad.nix`, in directory
order — every other entry is ignored — and each case is named by the sibling
obtained by replacing the occurrences of `.bad.` in the name with `.good.`. -/
theorem collect_from_dir_exactly_bad_nix :
    ∀ (dir : List (String × String)) (tcs : List TestCase),
      collect_from_dir dir = Except.ok tcs →
      tcs = (dir.filter (fun e => ends_with e.1 ".bad.nix")).map
        (fun e => ⟨some (replace e.1 ".bad." ".good."), e.2,
          (read_to_string dir (replace e.1 ".bad." ".good.")).getD ""⟩) := by
  intro dir tcs h
  simp only [collect_from_dir] at h
  cases hrec : collectEntries dir dir with
  | error e => rw [hrec] at h; cases h
  | ok res =>
      rw [hrec] at h
      by_cases hl : res.length > 0
      · simp only [hl, if_true] at h
        cases h
        exact collectEntries_ok dir dir _ hrec
      · simp only [hl, if_false] at h
        cases h

theorem collect_from_dir_exactly_bad_nix_witness :
    [(⟨some "a.good.nix", "A", "B"⟩ : TestCase)] =
      (([("a.bad.nix", "A"), ("a.good.nix", "B"), ("readme.md", "R")].filter
          (fun e => ends_with e.1 ".bad.nix")).map
        (fun e => ⟨some (replace e.1 ".bad." ".good."), e.2,
          (read_to_string [("a.bad.nix", "A"), ("a.good.nix", "B"), ("readme.md", "R")]
              (replace e.1 ".bad." ".good.")).getD ""⟩)) :=
  collect_from_dir_exactly_bad_nix _ _ rfl

end NixFmt
